import Mathlib

/- Shallow embedding of the Autodesk Alias documentation scraper
   (scraper/scraper.py, the Playwright pipeline, and
   scraper_tavily/tavily_scraper.py, the Tavily extraction pipeline).

   Strings are modelled as List Char. Python str.strip / str.find /
   substring tests and the regular expressions of NAV_PATTERNS are
   translated into explicit character-list functions; the line-oriented
   cleaning loop of clean_content becomes the structural recursion
   goClean together with its state function cleanState. -/

-- ===== Python string helpers =====

/-- The whitespace characters stripped by Python str.strip / str.rstrip
    and matched by the regex class backslash-s (space, tab, newline,
    carriage return, vertical tab, form feed). -/
def pyIsSpace (c : Char) : Bool :=
  c = ' ' || c = '\t' || c = '\n' || c = '\r' || c = Char.ofNat 11 || c = Char.ofNat 12

/-- Python str.strip(): drop whitespace from both ends. -/
def pyStrip (l : List Char) : List Char :=
  ((l.dropWhile pyIsSpace).reverse.dropWhile pyIsSpace).reverse

/-- Python str.rstrip(): drop whitespace from the right end. -/
def pyRStrip (l : List Char) : List Char :=
  (l.reverse.dropWhile pyIsSpace).reverse

/-- Python str.lower(). -/
def pyLower (l : List Char) : List Char := l.map Char.toLower

/-- Python str.split(sep) for a one-character separator: the empty string
    splits to one empty field. -/
def splitOnChar (sep : Char) : List Char → List (List Char)
  | [] => [[]]
  | c :: cs =>
    match splitOnChar sep cs with
    | [] => [[]]
    | l :: ls => if c = sep then [] :: l :: ls else (c :: l) :: ls

/-- Joining lines back with newline, as a final string join does. -/
def joinLines (ls : List (List Char)) : List Char := List.intercalate ['\n'] ls

/-- Python str.find(pat): index of the earliest occurrence, none if absent. -/
def findSub (pat : List Char) : List Char → Option Nat
  | [] => if pat.isPrefixOf [] then some 0 else none
  | c :: cs => if pat.isPrefixOf (c :: cs) then some 0 else (findSub pat cs).map (· + 1)

/-- Python substring membership, pat in s. -/
def containsSub (pat l : List Char) : Bool := (findSub pat l).isSome

/-- The apostrophe character (used inside some NAV_PATTERNS literals). -/
def apos : Char := Char.ofNat 39

-- ===== tavily_scraper.py: NAV_PATTERNS, one matcher per regex =====

def isPyDigit (c : Char) : Bool := decide ('0' ≤ c) && decide (c ≤ '9')

def isUpperAZ (c : Char) : Bool := decide ('A' ≤ c) && decide (c ≤ 'Z')

/-- Consume digits+ then a dot then whitespace+ at the start of the line
    (the common head of the breadcrumb regexes); return the remainder. -/
def afterNumDot (l : List Char) : Option (List Char) :=
  let ds := l.takeWhile isPyDigit
  if ds = [] then none
  else
    match l.drop ds.length with
    | c :: rest =>
      if c = '.' then
        let ws := rest.takeWhile pyIsSpace
        if ws = [] then none else some (rest.drop ws.length)
      else none
    | [] => none

/-- Breadcrumb regex with a fixed literal after the number. -/
def matchNumDotLit (lit l : List Char) : Bool :=
  match afterNumDot l with
  | some r => lit.isPrefixOf r
  | none => false

/-- Breadcrumb regex requiring an uppercase letter after the number. -/
def matchNumDotUpper (l : List Char) : Bool :=
  match afterNumDot l with
  | some (c :: _) => isUpperAZ c
  | _ => false

/-- A literal at the start of the line followed by only whitespace. -/
def litThenWs (lit l : List Char) : Bool :=
  lit.isPrefixOf l && (l.drop lit.length).all pyIsSpace

/-- Optional leading whitespace, a literal, then only whitespace. -/
def wsLitWs (lit l : List Char) : Bool :=
  let r := l.dropWhile pyIsSpace
  lit.isPrefixOf r && (r.drop lit.length).all pyIsSpace

/-- Does the literal occur at some position, followed by only whitespace
    to the end of the line? -/
def existsLitThenWs (lit : List Char) : List Char → Bool
  | [] => litThenWs lit []
  | c :: rest => litThenWs lit (c :: rest) || existsLitThenWs lit rest

/-- The sidebar menu entry titles of the big alternation in NAV_PATTERNS. -/
def sidebarTitles : List (List Char) :=
  [ "Adding your plug-in".data, "Building Options".data, "Building the included".data,
    "Class reference".data, "Compiling and linking".data, "Implementation Details".data,
    "Introduction".data, "Plug-in API Examples".data, "Setting up plug-ins".data,
    "The universe and its objects".data, "Using OpenAlias".data, "Using the API".data,
    "Writing a plug-in".data, "Alias Installation".data, "Legacy Getting Started".data,
    "Alias What".data ++ [apos] ++ "s New".data,
    "What".data ++ [apos] ++ "s New in".data,
    "Alias Release Notes".data, "Tutorials".data, "Interface Reference".data,
    "Tool Palette Reference".data, "Menus Reference".data, "File Format Reference".data,
    "VRED Renderer".data, "Live Referencing".data, "Alias Dynamo".data,
    "Flow Production".data, "Form Explorer".data, "NavPack Design".data,
    "Environment Variables".data ]

/-- The indented sidebar regex: at least two leading whitespace characters,
    then one of the sidebar titles. -/
def matchSidebar (l : List Char) : Bool :=
  decide (2 ≤ (l.takeWhile pyIsSpace).length) &&
    sidebarTitles.any (fun t => t.isPrefixOf (l.dropWhile pyIsSpace))

/-- Creative-Commons notice regex: fixed head, then Creative Commons somewhere. -/
def matchExceptCC (l : List Char) : Bool :=
  let lit := "Except where otherwise noted".data
  lit.isPrefixOf l && containsSub "Creative Commons".data (l.drop lit.length)

/-- Page header regex variant that additionally requires a pipe-Autodesk
    tail followed by only whitespace. -/
def matchAliasHelpAutodesk (l : List Char) : Bool :=
  let p := "Alias 2026 Help |".data
  p.isPrefixOf l && existsLitThenWs "| Autodesk".data (l.drop p.length)

/-- Image caption regex: Image, digits, a colon. -/
def matchImageN (l : List Char) : Bool :=
  let p := "Image ".data
  p.isPrefixOf l &&
    (let r := l.drop p.length
     let ds := r.takeWhile isPyDigit
     decide (ds ≠ []) && ":".data.isPrefixOf (r.drop ds.length))

/-- The sidebar section header alternation (leading whitespace optional). -/
def sectionHeaders : List (List Char) :=
  [ "Essential Skills".data, "Essential Concepts".data, "The Alias Workspace".data,
    "Keyboard Shortcuts".data, "Subdivision Modeling".data ]

def matchSectionHeader (l : List Char) : Bool :=
  sectionHeaders.any (fun t => t.isPrefixOf (l.dropWhile pyIsSpace))

def shareWords : List (List Char) :=
  ["Email".data, "Facebook".data, "Twitter".data, "LinkedIn".data]

/-- A line matches some pattern of NAV_REGEX (pattern.match anchors at the
    start of the line; lines contain no newline). -/
def isNoiseLine (l : List Char) : Bool :=
  matchNumDotLit "Alias Programmers".data l ||
  matchNumDotLit "Adding your plug-in".data l ||
  matchNumDotUpper l ||
  litThenWs "Share".data l ||
  shareWords.any (fun w => wsLitWs w l) ||
  matchSidebar l ||
  matchExceptCC l ||
  "Please see the Autodesk Creative Commons".data.isPrefixOf l ||
  matchAliasHelpAutodesk l ||
  "Alias 2026 Help |".data.isPrefixOf l ||
  wsLitWs "Help Home".data l ||
  wsLitWs "Quick Links".data l ||
  wsLitWs "Sign In".data l ||
  wsLitWs "English (US)".data l ||
  wsLitWs "简体中文".data l ||
  wsLitWs "日本語".data l ||
  wsLitWs "한국어".data l ||
  matchImageN l ||
  matchSectionHeader l ||
  wsLitWs ("What".data ++ [apos] ++ "s New".data) l ||
  wsLitWs "Release Notes".data l

-- ===== tavily_scraper.py: clean_content =====

/-- A fence marker line: the stripped line starts with three backticks. -/
def isFenceLine (l : List Char) : Bool := "```".data.isPrefixOf (pyStrip l)

def contentStartKeywords : List (List Char) :=
  ["help home".data, "quick links".data, "sign in".data, "english".data]

/-- First content-start branch: the stripped line is nonempty and equals
    the page title or a heading-formatted rendering of it. -/
def isTitleStartLine (title l : List Char) : Bool :=
  let s := pyStrip l
  decide (s ≠ []) &&
    (decide (s = title) || decide (s = "# ".data ++ title) ||
     decide (s = "## ".data ++ title) || decide (s = "### ".data ++ title))

/-- Second content-start branch: a heading line whose lowercase form
    mentions none of the chrome keywords. -/
def isHeadingStartLine (l : List Char) : Bool :=
  let s := pyStrip l
  "#".data.isPrefixOf s &&
    !(contentStartKeywords.any (fun kw => containsSub kw (pyLower s)))

def isContentStartLine (title l : List Char) : Bool :=
  isTitleStartLine title l || isHeadingStartLine l

/-- The per-line loop of clean_content. State: (in_code_block,
    found_content_start). Branch order follows the source: fence toggling
    first, then the inside-a-fence case, then content-start detection,
    then the noise filter. -/
def goClean (title : List Char) : List (List Char) → Bool × Bool → List (List Char)
  | [], _ => []
  | l :: ls, (inCode, found) =>
    if isFenceLine l = true then
      (if found = true then [l] else []) ++ goClean title ls (!inCode, found)
    else if inCode = true then
      (if found = true then [l] else []) ++ goClean title ls (inCode, found)
    else if found = true then
      (if isNoiseLine l = true then goClean title ls (inCode, found)
       else l :: goClean title ls (inCode, found))
    else
      (if isContentStartLine title l = true then l :: goClean title ls (inCode, true)
       else goClean title ls (inCode, false))

/-- The state of the clean_content loop after consuming a list of lines. -/
def cleanState (title : List Char) : List (List Char) → Bool × Bool → Bool × Bool
  | [], s => s
  | l :: ls, (inCode, found) =>
    if isFenceLine l = true then cleanState title ls (!inCode, found)
    else if inCode = true then cleanState title ls (inCode, found)
    else if found = true then cleanState title ls (inCode, found)
    else
      (if isContentStartLine title l = true then cleanState title ls (inCode, true)
       else cleanState title ls (inCode, false))

/-- The footer markers of strip_footer, in source order. -/
def footer_markers : List (List Char) :=
  [ "### Was this information helpful?".data,
    "Was this information helpful?".data,
    "Except where otherwise noted, this work is licensed".data,
    "[](https://creativecommons.org/".data,
    "Privacy Statement".data,
    "Legal Notices & Trademarks".data,
    "Report Noncompliance".data,
    "© 2025 Autodesk Inc.".data,
    "© 2024 Autodesk Inc.".data,
    "© 2026 Autodesk Inc.".data ]

/-- The marker loop of strip_footer: truncate (and stop) at the first
    marker in list order whose find index is strictly positive. -/
def strip_footer_aux : List (List Char) → List Char → List Char
  | [], c => c
  | m :: ms, c =>
    match findSub m c with
    | some i => if 0 < i then pyRStrip (c.take i) else strip_footer_aux ms c
    | none => strip_footer_aux ms c

/-- tavily_scraper.py strip_footer. -/
def strip_footer (c : List Char) : List Char := strip_footer_aux footer_markers c

def simpleCleanKeywords : List (List Char) :=
  [ "Help Home".data, "Quick Links".data, "Sign In".data,
    "English (US)".data, "简体中文".data, "日本語".data, "한국어".data,
    "Creative Commons".data, "Autodesk Creative Commons".data,
    "Image 2: Alias 2026".data ]

def shareExactWords : List (List Char) :=
  ["Share".data, "Email".data, "Facebook".data, "Twitter".data, "LinkedIn".data]

/-- tavily_scraper.py simple_clean: the fallback cleaner that only drops
    lines whose stripped form contains a blocklist keyword or equals a
    share word. -/
def simple_clean (raw : List Char) : List Char :=
  let lines := splitOnChar '\n' raw
  let cleaned := lines.filter (fun l =>
    let s := pyStrip l
    !(simpleCleanKeywords.any (fun kw => containsSub kw s)) &&
    !(shareExactWords.any (fun w => decide (s = w))))
  pyStrip (joinLines cleaned)

/-- tavily_scraper.py clean_content: main line pass, underflow fallback to
    simple_clean, then footer truncation. -/
def clean_content (raw title : List Char) : List Char :=
  if raw = [] then []
  else
    let lines := splitOnChar '\n' raw
    let cleaned := goClean title lines (false, false)
    let result := pyStrip (joinLines cleaned)
    let result2 := if result.length < 50 ∧ 100 < raw.length then simple_clean raw else result
    strip_footer result2

-- ===== tavily_scraper.py: the scrape orchestrator =====

/-- An entry of the source index (guid, title, url), the unit the
    orchestrator iterates over. -/
structure PageRef where
  guid : List Char
  title : List Char
  url : List Char
deriving DecidableEq, Repr

/-- A page record as save_page persists it (the fields the manifest
    rebuild later reads back). -/
structure PageRec where
  guid : List Char
  title : List Char
  url : List Char
  content : List Char
  has_code_blocks : Bool
deriving DecidableEq, Repr

/-- A manifest (index.json) entry; failed models the presence of the
    error extraction_failed field. -/
structure IdxEntry where
  guid : List Char
  title : List Char
  url : List Char
  has_code_blocks : Bool
  content_length : Nat
  failed : Bool
deriving DecidableEq, Repr

def BATCH_SIZE : Nat := 5

/-- Manifest entry built from a page record read back from disk
    (the previously-scraped branch of the index rebuild). -/
def entryOfRec (r : PageRec) : IdxEntry :=
  ⟨r.guid, r.title, r.url, r.has_code_blocks, r.content.length, false⟩

/-- Per-page step of the batch loop: fetch gives the extracted raw content
    for a url present in the batch results, none for a failed url.
    Returns the manifest entry plus the record save_page writes. -/
def processPage (fetch : List Char → Option (List Char)) (p : PageRef) :
    IdxEntry × Option PageRec :=
  match fetch p.url with
  | some raw =>
    let cleaned := clean_content raw p.title
    let hasCode := containsSub "```".data raw
    (⟨p.guid, p.title, p.url, hasCode, cleaned.length, false⟩,
     some ⟨p.guid, p.title, p.url, cleaned, hasCode⟩)
  | none => (⟨p.guid, p.title, p.url, false, 0, true⟩, none)

/-- Resume filter: drop pages whose guid is already on disk. -/
def pagesToScrape (pages : List PageRef) (disk : List PageRec) : List PageRef :=
  pages.filter (fun p => !(decide (p.guid ∈ disk.map PageRec.guid)))

/-- The manifest entries produced by this run, in page order. -/
def runEntries (fetch : List Char → Option (List Char)) (ts : List PageRef) :
    List IdxEntry :=
  ts.map (fun p => (processPage fetch p).1)

/-- The page records written by this run (failed pages write nothing). -/
def runRecs (fetch : List Char → Option (List Char)) (ts : List PageRef) :
    List PageRec :=
  ts.filterMap (fun p => (processPage fetch p).2)

/-- save_page: write one record, overwriting the file of the same guid. -/
def writeRec (disk : List PageRec) (r : PageRec) : List PageRec :=
  if disk.any (fun d => decide (d.guid = r.guid)) then
    disk.map (fun d => if d.guid = r.guid then r else d)
  else disk ++ [r]

def diskAfter (disk : List PageRec) (recs : List PageRec) : List PageRec :=
  recs.foldl writeRec disk

/-- The index rebuild loop: append an entry for every on-disk record whose
    guid is not already among this run's entries. -/
def addMissing (scraped : List IdxEntry) (disk : List PageRec) : List IdxEntry :=
  disk.foldl
    (fun acc r =>
      if acc.any (fun e => decide (e.guid = r.guid)) then acc
      else acc ++ [entryOfRec r])
    scraped

/-- tavily_scraper.py scrape, as (number of extract API calls, store after
    the run, manifest after the run). An empty to-scrape list returns
    early: no API call, store and manifest untouched. -/
def scrapeRun (pages : List PageRef) (disk : List PageRec)
    (oldIndex : List IdxEntry) (fetch : List Char → Option (List Char)) :
    Nat × List PageRec × List IdxEntry :=
  let ts := pagesToScrape pages disk
  if ts = [] then (0, disk, oldIndex)
  else
    ((ts.length + BATCH_SIZE - 1) / BATCH_SIZE,
     diskAfter disk (runRecs fetch ts),
     addMissing (runEntries fetch ts) (diskAfter disk (runRecs fetch ts)))

-- ===== scraper/scraper.py: content extraction =====

/-- A rendered page: query models page.query_selector plus inner_text for
    one selector; evalResult models the string computed by the final
    page.evaluate fallback script. -/
structure RenderedPage where
  query : List Char → Option (List Char)
  evalResult : List Char

/-- The selector fallback chain of extract_content, in priority order. -/
def selectors : List (List Char) :=
  [ ".body_content".data, "#body-content".data, ".caas_body".data,
    "article".data, "main".data ]

/-- Whitespace normalization applied to accepted content: collapse runs of
    three or more newlines to two, runs of two or more spaces to one,
    then strip. -/
def emitNL (n : Nat) : List Char := if 3 ≤ n then "\n\n".data else List.replicate n '\n'

def collapseNLGo : List Char → Nat → List Char
  | [], n => emitNL n
  | c :: rest, n =>
    if c = '\n' then collapseNLGo rest (n + 1)
    else emitNL n ++ c :: collapseNLGo rest 0

def collapseNL (l : List Char) : List Char := collapseNLGo l 0

def emitSP (n : Nat) : List Char := if 2 ≤ n then [' '] else List.replicate n ' '

def collapseSPGo : List Char → Nat → List Char
  | [], n => emitSP n
  | c :: rest, n =>
    if c = ' ' then collapseSPGo rest (n + 1)
    else emitSP n ++ c :: collapseSPGo rest 0

def collapseSP (l : List Char) : List Char := collapseSPGo l 0

def normalizeText (t : List Char) : List Char := pyStrip (collapseSP (collapseNL t))

/-- The selector loop of extract_content: first selector that is present
    and whose raw text is nonempty with length strictly over 100 wins;
    its normalized text is returned. -/
def selectorChain (pg : RenderedPage) : List (List Char) → Option (List Char)
  | [] => none
  | s :: ss =>
    match pg.query s with
    | some t =>
      if t ≠ [] ∧ 100 < t.length then some (normalizeText t)
      else selectorChain pg ss
    | none => selectorChain pg ss

/-- scraper.py extract_content: the selector chain, then the evaluate
    fallback (normalized when nonempty), else empty. -/
def extract_content (pg : RenderedPage) : List Char :=
  match selectorChain pg selectors with
  | some t => t
  | none => if pg.evalResult ≠ [] then normalizeText pg.evalResult else []

/-- A page record of the Playwright scraper (scraped_at omitted). -/
structure ScrapedPage where
  guid : List Char
  title : List Char
  url : List Char
  content : List Char
deriving DecidableEq, Repr

/-- The persistence guard of scrape_page: append a record only when the
    extracted content is truthy and longer than 50 characters. -/
def scrape_page_result (link : PageRef) (content : List Char) : Option ScrapedPage :=
  if content ≠ [] ∧ 50 < content.length then
    some ⟨link.guid, link.title, link.url, content⟩
  else none

/-- Write one scraped page file, overwriting the file of the same guid. -/
def writeScrapedRec (disk : List ScrapedPage) (r : ScrapedPage) : List ScrapedPage :=
  if disk.any (fun d => decide (d.guid = r.guid)) then
    disk.map (fun d => if d.guid = r.guid then r else d)
  else disk ++ [r]

/-- AutodeskDocsScraper save_results: write every page record scraped
    this run, then write an index.json listing exactly this run's scraped
    pages as (guid, title, url). The on-disk store is never scanned for
    pre-existing records. Returns (store after the run, index written). -/
def save_results (disk : List ScrapedPage) (scraped : List ScrapedPage) :
    List ScrapedPage × List PageRef :=
  (scraped.foldl writeScrapedRec disk,
   scraped.map (fun p => ⟨p.guid, p.title, p.url⟩))

/-- AutodeskDocsScraper run: discover links, navigate to every discovered
    link (one page fetch each — the run consults no store before
    scraping, so the disk argument is ignored exactly as the code never
    reads its output directory's existing records), keep pages passing
    the length guard, then save results. Returns (number of page
    fetches, (store after the run, index written)). -/
def playwrightRun (disk : List ScrapedPage) (links : List PageRef)
    (extract : List Char → List Char) : Nat × List ScrapedPage × List PageRef :=
  let scraped := links.filterMap (fun l => scrape_page_result l (extract l.url))
  (links.length, save_results disk scraped)

-- ===== scraper/scraper.py: discovery =====

/-- One anchor element of the navigation tree: get_attribute href (which
    may be missing) and inner_text. -/
structure RawLink where
  href : Option (List Char)
  title : List Char
deriving DecidableEq, Repr

/-- The character class of the guid regex. -/
def isGuidChar (c : Char) : Bool :=
  (decide ('A' ≤ c) && decide (c ≤ 'F')) || (decide ('0' ≤ c) && decide (c ≤ '9')) ||
  (decide ('a' ≤ c) && decide (c ≤ 'f')) || c = '-'

/-- re.search of guid=(GUID-[A-F0-9a-f-]+): earliest position where the
    literal head matches and at least one class character follows; the
    captured group is GUID- plus the maximal class-character run. -/
def findGuid : List Char → Option (List Char)
  | [] => none
  | c :: rest =>
    if "guid=GUID-".data.isPrefixOf (c :: rest) then
      let run := ((c :: rest).drop 10).takeWhile isGuidChar
      if run = [] then findGuid rest else some ("GUID-".data ++ run)
    else findGuid rest

/-- The per-anchor loop of discover_api_pages: strip the title, skip empty
    titles, search the href for a guid, skip guids already in the
    DiscoverySet, build the absolute url, and record the page. -/
def discoverLoop (base : List Char) : List RawLink → List (List Char) → List PageRef
  | [], _ => []
  | link :: rest, visited =>
    let t := pyStrip link.title
    if t = [] then discoverLoop base rest visited
    else
      match findGuid (link.href.getD []) with
      | none => discoverLoop base rest visited
      | some guid =>
        if guid ∈ visited then discoverLoop base rest visited
        else
          let href := link.href.getD []
          let url := if "http".data.isPrefixOf href then href
                     else base ++ "?guid=".data ++ guid
          ⟨guid, t, url⟩ :: discoverLoop base rest (guid :: visited)

/-- The guid an anchor contributes when it is eligible (nonempty stripped
    title and a guid in its href), before deduplication. -/
def eligGuid (link : RawLink) : Option (List Char) :=
  if pyStrip link.title = [] then none else findGuid (link.href.getD [])

/-- First-occurrence deduplication against a seen set. -/
def dedupFirst : List (List Char) → List (List Char) → List (List Char)
  | [], _ => []
  | g :: gs, seen => if g ∈ seen then dedupFirst gs seen else g :: dedupFirst gs (g :: seen)

-- ===== scraper/scraper.py: navigation expansion loops =====

/-- The shared shape of both expansion loops over an abstract rendered
    tree state: each pass queries the number of collapsed nodes, stops
    when it is zero, otherwise clicks them all (step) and goes on.
    Returns the number of passes executed. -/
def expandLoopPasses {σ : Type} (step : σ → σ) (query : σ → Nat) : Nat → σ → Nat
  | 0, _ => 0
  | n + 1, s => if query s = 0 then 1 else 1 + expandLoopPasses step query n (step s)

/-- expand_all_api_subsections: subtree-restricted mode, default cap 20. -/
def expand_all_api_subsections {σ : Type} (step : σ → σ) (query : σ → Nat) (s : σ) : Nat :=
  expandLoopPasses step query 20 s

/-- expand_all_sections: whole-tree degraded fallback, default cap 30. -/
def expand_all_sections {σ : Type} (step : σ → σ) (query : σ → Nat) (s : σ) : Nat :=
  expandLoopPasses step query 30 s

-- ===== occurrence counting used to state the amended footer claim =====

/-- Number of positions at which a pattern occurs in the content. -/
def occCountFor (c m : List Char) : Nat :=
  ((List.range (c.length + 1)).filter (fun j => m.isPrefixOf (c.drop j))).length

/-- Total number of footer-marker occurrences in the content. -/
def markerOccCount (c : List Char) : Nat :=
  (footer_markers.map (occCountFor c)).sum

-- ===== concrete rendered pages used in the extractor theorems =====

/-- A page where the third selector holds exactly 100 characters and the
    fourth holds 150: the chain skips the exactly-100 selector. -/
def pgBoundary : RenderedPage :=
  ⟨fun s => if s = ".caas_body".data then some (List.replicate 100 'a')
            else if s = "article".data then some (List.replicate 150 'b') else none,
   []⟩

-- ===== helper lemmas about isPrefixOf, findSub, pyRStrip =====

theorem ipo_nil_eq (m : List Char) (h : m.isPrefixOf ([] : List Char) = true) : m = [] := by
  cases m with
  | nil => rfl
  | cons a as => simp only [List.isPrefixOf] at h; cases h

theorem ipo_append_r (m : List Char) : ∀ (l t : List Char),
    m.isPrefixOf l = true → m.isPrefixOf (l ++ t) = true := by
  induction m with
  | nil => intro l t _; exact List.isPrefixOf_nil_left
  | cons a as ih =>
    intro l t h
    cases l with
    | nil => simp only [List.isPrefixOf] at h; cases h
    | cons b bs =>
      simp only [List.cons_append, List.isPrefixOf, Bool.and_eq_true] at h ⊢
      exact ⟨h.1, ih bs t h.2⟩

theorem ipo_drop_append (m : List Char) : ∀ (r : List Char) (j : Nat) (t : List Char),
    m.isPrefixOf (r.drop j) = true → m.isPrefixOf ((r ++ t).drop j) = true := by
  intro r
  induction r with
  | nil =>
    intro j t h
    rw [List.drop_nil] at h
    have hm : m = [] := ipo_nil_eq m h
    subst hm
    exact List.isPrefixOf_nil_left
  | cons a as ih =>
    intro j t h
    cases j with
    | zero => exact ipo_append_r m (a :: as) t h
    | succ j' =>
      simp only [List.cons_append, List.drop_succ_cons] at h ⊢
      exact ih j' t h

theorem findSub_some (m : List Char) : ∀ (c : List Char) (i : Nat),
    findSub m c = some i → m.isPrefixOf (c.drop i) = true := by
  intro c
  induction c with
  | nil =>
    intro i h
    simp only [findSub] at h
    by_cases hp : m.isPrefixOf ([] : List Char) = true
    · rw [if_pos hp] at h
      obtain rfl : (0 : Nat) = i := by simpa using h
      simpa using hp
    · rw [if_neg hp] at h; cases h
  | cons a as ih =>
    intro i h
    simp only [findSub] at h
    by_cases hp : m.isPrefixOf (a :: as) = true
    · rw [if_pos hp] at h
      obtain rfl : (0 : Nat) = i := by simpa using h
      simpa using hp
    · rw [if_neg hp] at h
      cases hfind : findSub m as with
      | none => rw [hfind] at h; cases h
      | some j =>
        rw [hfind] at h
        simp only [Option.map_some'] at h
        obtain rfl : j + 1 = i := by simpa using h
        rw [List.drop_succ_cons]
        exact ih j hfind

theorem pyRStrip_decomp (l : List Char) :
    pyRStrip l ++ (l.reverse.takeWhile pyIsSpace).reverse = l := by
  unfold pyRStrip
  rw [← List.reverse_append, List.takeWhile_append_dropWhile, List.reverse_reverse]

theorem occ_le_length (m c : List Char) (j : Nat) (hm : m ≠ [])
    (h : m.isPrefixOf (c.drop j) = true) : j ≤ c.length := by
  by_contra hlt
  push_neg at hlt
  rw [List.drop_eq_nil_of_le (Nat.le_of_lt hlt)] at h
  exact hm (ipo_nil_eq m h)

-- ===== counting lemmas for marker occurrences =====

theorem le_sum_map_of_mem {α : Type} (f : α → Nat) :
    ∀ (l : List α) (a : α), a ∈ l → f a ≤ (l.map f).sum := by
  intro l
  induction l with
  | nil => intro a ha; cases ha
  | cons x xs ih =>
    intro a ha
    rcases List.mem_cons.mp ha with rfl | hmem
    · simp only [List.map_cons, List.sum_cons]; exact Nat.le_add_right _ _
    · calc f a ≤ (xs.map f).sum := ih a hmem
        _ ≤ f x + (xs.map f).sum := Nat.le_add_left _ _
        _ = ((x :: xs).map f).sum := by simp

theorem add_le_sum_map_of_two_mem {α : Type} [DecidableEq α] (f : α → Nat) :
    ∀ (l : List α) (a b : α), a ∈ l → b ∈ l → a ≠ b →
      f a + f b ≤ (l.map f).sum := by
  intro l
  induction l with
  | nil => intro a b ha _ _; cases ha
  | cons x xs ih =>
    intro a b ha hb hne
    simp only [List.map_cons, List.sum_cons]
    rcases List.mem_cons.mp ha with rfl | hamem
    · have hbmem : b ∈ xs := by
        rcases List.mem_cons.mp hb with rfl | h
        · exact absurd rfl hne
        · exact h
      exact Nat.add_le_add (Nat.le_refl _) (le_sum_map_of_mem f xs b hbmem)
    · rcases List.mem_cons.mp hb with rfl | hbmem
      · rw [Nat.add_comm (f a) (f b)]
        exact Nat.add_le_add (Nat.le_refl _) (le_sum_map_of_mem f xs a hamem)
      · calc f a + f b ≤ (xs.map f).sum := ih a b hamem hbmem hne
          _ ≤ f x + (xs.map f).sum := Nat.le_add_left _ _

theorem two_le_length_of_two_mem {α : Type} :
    ∀ (l : List α) (a b : α), a ∈ l → b ∈ l → a ≠ b → l.Nodup → 2 ≤ l.length := by
  intro l
  induction l with
  | nil => intro a b ha _ _ _; cases ha
  | cons x xs ih =>
    intro a b ha hb hne hnd
    have hxs : xs ≠ [] → 1 ≤ xs.length := by
      intro h
      cases xs with
      | nil => exact absurd rfl h
      | cons y ys => simp
    rcases List.mem_cons.mp ha with rfl | hamem
    · have hbmem : b ∈ xs := by
        rcases List.mem_cons.mp hb with rfl | h
        · exact absurd rfl hne
        · exact h
      have h1 : 1 ≤ xs.length := hxs (by intro he; rw [he] at hbmem; cases hbmem)
      simp only [List.length_cons]
      omega
    · rcases List.mem_cons.mp hb with rfl | hbmem
      · have h1 : 1 ≤ xs.length := hxs (by intro he; rw [he] at hamem; cases hamem)
        simp only [List.length_cons]
        omega
      · have := ih a b hamem hbmem hne (List.Nodup.of_cons hnd)
        simp only [List.length_cons]
        omega

-- ===== occCountFor lemmas =====

theorem mem_occ_filter (c m : List Char) (j : Nat) (hm : m ≠ [])
    (h : m.isPrefixOf (c.drop j) = true) :
    j ∈ (List.range (c.length + 1)).filter (fun j => m.isPrefixOf (c.drop j)) := by
  rw [List.mem_filter, List.mem_range]
  exact ⟨Nat.lt_succ_of_le (occ_le_length m c j hm h), h⟩

theorem one_le_occCountFor (c m : List Char) (j : Nat) (hm : m ≠ [])
    (h : m.isPrefixOf (c.drop j) = true) : 1 ≤ occCountFor c m := by
  unfold occCountFor
  have := mem_occ_filter c m j hm h
  cases hl : (List.range (c.length + 1)).filter (fun j => m.isPrefixOf (c.drop j)) with
  | nil => rw [hl] at this; cases this
  | cons x xs => simp [hl]

theorem two_le_occCountFor (c m : List Char) (i j : Nat) (hm : m ≠ [])
    (hi : m.isPrefixOf (c.drop i) = true) (hj : m.isPrefixOf (c.drop j) = true)
    (hne : i ≠ j) : 2 ≤ occCountFor c m := by
  unfold occCountFor
  exact two_le_length_of_two_mem _ i j
    (mem_occ_filter c m i hm hi) (mem_occ_filter c m j hm hj) hne
    ((List.nodup_range _).filter _)

theorem footer_markers_ne_nil : ∀ m ∈ footer_markers, m ≠ [] := by decide

-- ===== strip_footer structure lemmas =====

theorem strip_footer_aux_cases : ∀ (ms : List (List Char)) (c : List Char),
    strip_footer_aux ms c = c ∨
      ∃ m, m ∈ ms ∧ ∃ i, 0 < i ∧ findSub m c = some i ∧
        strip_footer_aux ms c = pyRStrip (c.take i) := by
  intro ms
  induction ms with
  | nil => intro c; left; rfl
  | cons m ms ih =>
    intro c
    cases hfind : findSub m c with
    | none =>
      simp only [strip_footer_aux, hfind]
      rcases ih c with h | ⟨m', hm', i, hi, hf, he⟩
      · left; exact h
      · right; exact ⟨m', List.mem_cons_of_mem _ hm', i, hi, hf, he⟩
    | some i =>
      simp only [strip_footer_aux, hfind]
      by_cases hpos : 0 < i
      · right
        rw [if_pos hpos]
        exact ⟨m, List.mem_cons_self _ _, i, hpos, hfind, rfl⟩
      · rw [if_neg hpos]
        rcases ih c with h | ⟨m', hm', i', hi', hf, he⟩
        · left; exact h
        · right; exact ⟨m', List.mem_cons_of_mem _ hm', i', hi', hf, he⟩

theorem strip_footer_aux_id : ∀ (ms : List (List Char)) (c : List Char),
    (∀ m ∈ ms, ∀ i, findSub m c = some i → i = 0) → strip_footer_aux ms c = c := by
  intro ms
  induction ms with
  | nil => intro c _; rfl
  | cons m ms ih =>
    intro c h
    cases hfind : findSub m c with
    | none =>
      simp only [strip_footer_aux, hfind]
      exact ih c (fun m' hm' => h m' (List.mem_cons_of_mem _ hm'))
    | some i =>
      have hi0 : i = 0 := h m (List.mem_cons_self _ _) i hfind
      subst hi0
      simp only [strip_footer_aux, hfind]
      rw [if_neg (by omega)]
      exact ih c (fun m' hm' => h m' (List.mem_cons_of_mem _ hm'))

/-- Claim C8 (amended): footer truncation is idempotent on content with at
    most one footer-marker occurrence in total; in general the scan picks
    the first marker in list order, not the earliest occurrence in the
    content, so a second pass can truncate further. -/
theorem c8_strip_footer_idem (c : List Char) (h : markerOccCount c ≤ 1) :
    strip_footer (strip_footer c) = strip_footer c := by
  rcases strip_footer_aux_cases footer_markers c with hid | ⟨m, hm, i, hipos, hfind, heq⟩
  · unfold strip_footer
    rw [hid]
    exact hid
  · unfold strip_footer
    rw [heq]
    set r := pyRStrip (c.take i) with hr
    have hocc : m.isPrefixOf (c.drop i) = true := findSub_some m c i hfind
    have hmne : m ≠ [] := footer_markers_ne_nil m hm
    obtain ⟨t1, ht1⟩ : ∃ t1, r ++ t1 = c.take i := ⟨_, pyRStrip_decomp (c.take i)⟩
    obtain ⟨t2, ht2⟩ : ∃ t2, c.take i ++ t2 = c := ⟨c.drop i, List.take_append_drop i c⟩
    have hrc : r ++ (t1 ++ t2) = c := by rw [← List.append_assoc, ht1, ht2]
    have hrlen : r.length ≤ i := by
      have h1 : r.length ≤ (c.take i).length := by
        rw [← ht1, List.length_append]; omega
      have h2 : (c.take i).length ≤ i := by
        rw [List.length_take]; exact min_le_left _ _
      omega
    have hno : ∀ m' ∈ footer_markers, ∀ j, m'.isPrefixOf (r.drop j) = false := by
      intro m' hm' j
      by_contra hocc'
      have hocc'' : m'.isPrefixOf (r.drop j) = true := by
        cases hb : m'.isPrefixOf (r.drop j) with
        | false => exact absurd hb hocc'
        | true => rfl
      have hm'ne : m' ≠ [] := footer_markers_ne_nil m' hm'
      have hoccc : m'.isPrefixOf (c.drop j) = true := by
        rw [← hrc]; exact ipo_drop_append m' r j (t1 ++ t2) hocc''
      by_cases hmm : m' = m ∧ j = i
      · obtain ⟨rfl, rfl⟩ := hmm
        rw [List.drop_eq_nil_of_le hrlen] at hocc''
        exact hm'ne (ipo_nil_eq _ hocc'')
      · have h2 : 2 ≤ markerOccCount c := by
          by_cases hmeq : m' = m
          · subst hmeq
            have hji : j ≠ i := by tauto
            calc 2 ≤ occCountFor c m' := two_le_occCountFor c m' j i hm'ne hoccc hocc hji
              _ ≤ markerOccCount c := le_sum_map_of_mem _ footer_markers m' hm'
          · have ha := one_le_occCountFor c m' j hm'ne hoccc
            have hb2 := one_le_occCountFor c m i hmne hocc
            calc 2 ≤ occCountFor c m' + occCountFor c m := by omega
              _ ≤ markerOccCount c :=
                add_le_sum_map_of_two_mem _ footer_markers m' m hm' hm hmeq
        omega
    apply strip_footer_aux_id
    intro m' hm' i' hfind'
    have hocc2 := findSub_some m' r i' hfind'
    rw [hno m' hm' i'] at hocc2
    cases hocc2

/-- Claim C8 counterexample: the content contains Privacy Statement before
    Was this information helpful; the first pass truncates at the latter
    (first in marker-list order with a positive index), and a second pass
    truncates again at the former, so footer truncation as claimed for all
    content strings is not idempotent. -/
theorem c8_counterexample :
    strip_footer (strip_footer ("X Privacy Statement Y Was this information helpful?".data)) ≠
      strip_footer ("X Privacy Statement Y Was this information helpful?".data) := by decide

/-- Witness for c8_strip_footer_idem at content with one marker occurrence. -/
theorem c8_witness :
    markerOccCount ("abc Privacy Statement xyz".data) ≤ 1 ∧
      strip_footer (strip_footer ("abc Privacy Statement xyz".data)) =
        strip_footer ("abc Privacy Statement xyz".data) :=
  ⟨by decide, c8_strip_footer_idem ("abc Privacy Statement xyz".data) (by decide)⟩

/-- Claim C9: when a footer marker's earliest occurrence is at index 0
    (it is a prefix of the content), strip_footer does not truncate at
    that marker — find returns index 0 for it, so the strictly-positive
    test fails even when the same marker recurs at a positive index —
    and the content is returned unchanged unless a different listed
    marker occurs at a positive index. -/
theorem c9_marker_at_start_ignored (c m : List Char)
    (hm : m ∈ footer_markers) (h0 : m.isPrefixOf c = true)
    (hno : ∀ m' ∈ footer_markers, m' ≠ m → ∀ j, j < c.length + 1 → 0 < j →
      m'.isPrefixOf (c.drop j) = false) :
    findSub m c = some 0 ∧ strip_footer c = c := by
  have hmne : m ≠ [] := footer_markers_ne_nil m hm
  have hfind0 : findSub m c = some 0 := by
    cases c with
    | nil => exact absurd (ipo_nil_eq m h0) hmne
    | cons c0 cs => simp only [findSub, if_pos h0]
  refine ⟨hfind0, ?_⟩
  apply strip_footer_aux_id
  intro m' hm' i hfind'
  by_cases hmeq : m' = m
  · subst hmeq
    rw [hfind0] at hfind'
    injection hfind' with h2
    exact h2.symm
  · by_contra hne
    have hipos : 0 < i := Nat.pos_of_ne_zero hne
    have hocc := findSub_some m' c i hfind'
    have hm'ne := footer_markers_ne_nil m' hm'
    have hle := occ_le_length m' c i hm'ne hocc
    have hfalse := hno m' hm' hmeq i (by omega) hipos
    rw [hfalse] at hocc
    cases hocc

/-- Witness for c9_marker_at_start_ignored: the content begins with the
    Privacy Statement marker and repeats that same marker at a positive
    index; find still returns 0 for it, no different marker occurs at a
    positive index, and the content is returned unchanged. -/
theorem c9_witness :
    findSub "Privacy Statement".data
        "Privacy Statement foo Privacy Statement".data = some 0 ∧
      strip_footer "Privacy Statement foo Privacy Statement".data =
        "Privacy Statement foo Privacy Statement".data :=
  c9_marker_at_start_ignored ("Privacy Statement foo Privacy Statement".data)
    ("Privacy Statement".data) (by decide) (by decide) (by decide)

-- ===== goClean structure lemmas =====

theorem goClean_append (title : List Char) : ∀ (xs ys : List (List Char)) (s : Bool × Bool),
    goClean title (xs ++ ys) s =
      goClean title xs s ++ goClean title ys (cleanState title xs s) := by
  intro xs
  induction xs with
  | nil => intro ys s; rfl
  | cons l ls ih =>
    intro ys s
    obtain ⟨inCode, found⟩ := s
    cases inCode <;> cases found <;>
      by_cases h1 : isFenceLine l = true <;>
      by_cases h2 : isNoiseLine l = true <;>
      by_cases h3 : isContentStartLine title l = true <;>
      simp [goClean, cleanState, h1, h2, h3, ih]

theorem goClean_in_code_found (title : List Char) :
    ∀ (body ys : List (List Char)), (∀ l ∈ body, isFenceLine l = false) →
      goClean title (body ++ ys) (true, true) = body ++ goClean title ys (true, true) := by
  intro body
  induction body with
  | nil => intro ys _; rfl
  | cons l ls ih =>
    intro ys h
    have hl : isFenceLine l = false := h l (List.mem_cons_self _ _)
    have ih' := ih ys (fun x hx => h x (List.mem_cons_of_mem _ hx))
    simp [goClean, hl, ih']

theorem goClean_in_code_not_found (title : List Char) :
    ∀ (body ys : List (List Char)), (∀ l ∈ body, isFenceLine l = false) →
      goClean title (body ++ ys) (true, false) = goClean title ys (true, false) := by
  intro body
  induction body with
  | nil => intro ys _; rfl
  | cons l ls ih =>
    intro ys h
    have hl : isFenceLine l = false := h l (List.mem_cons_self _ _)
    have ih' := ih ys (fun x hx => h x (List.mem_cons_of_mem _ hx))
    simp [goClean, hl, ih']

theorem goClean_skip_pre (title : List Char) :
    ∀ (pre : List (List Char)),
      (∀ l ∈ pre, isFenceLine l = false ∧ isContentStartLine title l = false) →
      goClean title pre (false, false) = [] ∧
        cleanState title pre (false, false) = (false, false) := by
  intro pre
  induction pre with
  | nil => intro _; exact ⟨rfl, rfl⟩
  | cons l ls ih =>
    intro h
    have hl := h l (List.mem_cons_self _ _)
    have ihl := ih (fun x hx => h x (List.mem_cons_of_mem _ hx))
    constructor
    · simp [goClean, hl.1, hl.2, ihl.1]
    · simp [cleanState, hl.1, hl.2, ihl.2]

/-- Claim C1 (amended): once content has started (and outside a fence),
    the main line-classification pass of clean_content emits a fenced code
    block verbatim: both fence lines and every line between them, in
    order, as a contiguous block, regardless of noise-pattern matches
    inside the fence. The end-to-end guarantee fails only because the
    later footer-truncation pass can cut inside the fence and the
    short-result fallback cleaner ignores fences. -/
theorem c1_main_pass_preserves_fence (title : List Char)
    (pre body rest : List (List Char)) (f1 f2 : List Char)
    (hf1 : isFenceLine f1 = true) (hf2 : isFenceLine f2 = true)
    (hbody : ∀ l ∈ body, isFenceLine l = false)
    (hpre : cleanState title pre (false, false) = (false, true)) :
    goClean title (pre ++ f1 :: (body ++ f2 :: rest)) (false, false) =
      goClean title pre (false, false) ++
        f1 :: (body ++ f2 :: goClean title rest (false, true)) := by
  rw [goClean_append, hpre]
  congr 1
  have step1 : goClean title (f1 :: (body ++ f2 :: rest)) (false, true) =
      f1 :: goClean title (body ++ f2 :: rest) (true, true) := by
    simp [goClean, hf1]
  rw [step1, goClean_in_code_found title body (f2 :: rest) hbody]
  congr 1
  simp [goClean, hf2]

/-- Claim C1 counterexample: a fenced block containing the Privacy
    Statement footer marker; clean_content truncates inside the fence, so
    the cleaned output is not byte-identical on the fenced region (the
    marker line and the closing fence disappear). -/
theorem c1_counterexample :
    clean_content ("# Title\n```\nPrivacy Statement\nmore\n```\nend".data) ("T".data) =
        "# Title\n```".data ∧
      containsSub "Privacy Statement".data
        ("# Title\n```\nPrivacy Statement\nmore\n```\nend".data) = true ∧
      containsSub "Privacy Statement".data
        (clean_content ("# Title\n```\nPrivacy Statement\nmore\n```\nend".data) ("T".data)) =
        false := by decide

/-- Witness for c1_main_pass_preserves_fence on a concrete page whose
    fence contains a line matching the breadcrumb noise pattern. -/
theorem c1_witness :
    goClean ("T".data)
        (["# Intro".data] ++ "```".data :: (["1. Alias Programmers guide".data] ++
          "```".data :: ["after".data])) (false, false) =
      goClean ("T".data) ["# Intro".data] (false, false) ++
        "```".data :: (["1. Alias Programmers guide".data] ++
          "```".data :: goClean ("T".data) ["after".data] (false, true)) :=
  c1_main_pass_preserves_fence ("T".data) ["# Intro".data]
    ["1. Alias Programmers guide".data] ["after".data] ("```".data) ("```".data)
    (by decide) (by decide) (by decide) (by decide)

/-- Claim C10: a fenced code block lying entirely before the content-start
    line is dropped completely by the main pass, and lines inside it never
    latch the content-start state: the output is exactly the output of
    cleaning the lines after the closing fence from the initial state. -/
theorem c10_pre_content_fence_dropped (title : List Char)
    (pre body rest : List (List Char)) (f1 f2 : List Char)
    (hf1 : isFenceLine f1 = true) (hf2 : isFenceLine f2 = true)
    (hbody : ∀ l ∈ body, isFenceLine l = false)
    (hpre : ∀ l ∈ pre, isFenceLine l = false ∧ isContentStartLine title l = false) :
    goClean title (pre ++ f1 :: (body ++ f2 :: rest)) (false, false) =
      goClean title rest (false, false) := by
  obtain ⟨hgo, hstate⟩ := goClean_skip_pre title pre hpre
  rw [goClean_append, hstate, hgo, List.nil_append]
  have step1 : goClean title (f1 :: (body ++ f2 :: rest)) (false, false) =
      goClean title (body ++ f2 :: rest) (true, false) := by
    simp [goClean, hf1]
  rw [step1, goClean_in_code_not_found title body (f2 :: rest) hbody]
  simp [goClean, hf2]

/-- Witness for c10_pre_content_fence_dropped: the fence interior contains
    a heading-shaped line which must not latch content start. -/
theorem c10_witness :
    goClean ("T".data)
        (["Sign In".data] ++ "```".data :: (["# Fake Heading".data] ++
          "```".data :: ["# Real".data])) (false, false) =
      goClean ("T".data) ["# Real".data] (false, false) :=
  c10_pre_content_fence_dropped ("T".data) ["Sign In".data]
    ["# Fake Heading".data] ["# Real".data] ("```".data) ("```".data)
    (by decide) (by decide) (by decide) (by decide)

-- ===== orchestrator lemmas =====

theorem processPage_fst_guid (fetch : List Char → Option (List Char)) (p : PageRef) :
    ((processPage fetch p).1).guid = p.guid := by
  unfold processPage
  cases fetch p.url <;> rfl

theorem processPage_snd_guid (fetch : List Char → Option (List Char)) (p : PageRef)
    (r : PageRec) (h : (processPage fetch p).2 = some r) : r.guid = p.guid := by
  unfold processPage at h
  cases hf : fetch p.url with
  | none => rw [hf] at h; cases h
  | some raw =>
    rw [hf] at h
    simp only [Option.some.injEq] at h
    rw [← h]

theorem mem_guid_writeRec (disk : List PageRec) (r : PageRec) (g : List Char) :
    g ∈ (writeRec disk r).map PageRec.guid ↔
      g ∈ disk.map PageRec.guid ∨ g = r.guid := by
  unfold writeRec
  by_cases h : disk.any (fun d => decide (d.guid = r.guid)) = true
  · rw [if_pos h]
    have hex : r.guid ∈ disk.map PageRec.guid := by
      rw [List.any_eq_true] at h
      obtain ⟨d, hd, hdg⟩ := h
      simp only [decide_eq_true_eq] at hdg
      exact List.mem_map.mpr ⟨d, hd, hdg⟩
    have hmapeq : (disk.map (fun d => if d.guid = r.guid then r else d)).map PageRec.guid =
        disk.map PageRec.guid := by
      rw [List.map_map]
      apply List.map_congr_left
      intro d _
      by_cases hd : d.guid = r.guid
      · simp [hd]
      · simp [hd]
    rw [hmapeq]
    constructor
    · exact Or.inl
    · rintro (hg | rfl)
      · exact hg
      · exact hex
  · rw [if_neg h]
    rw [List.map_append]
    simp [List.mem_append]

theorem mem_guid_diskAfter (g : List Char) : ∀ (recs : List PageRec) (disk : List PageRec),
    g ∈ (diskAfter disk recs).map PageRec.guid ↔
      g ∈ disk.map PageRec.guid ∨ g ∈ recs.map PageRec.guid := by
  intro recs
  induction recs with
  | nil => intro disk; simp [diskAfter]
  | cons r rs ih =>
    intro disk
    have : diskAfter disk (r :: rs) = diskAfter (writeRec disk r) rs := rfl
    rw [this, ih, mem_guid_writeRec]
    simp only [List.map_cons, List.mem_cons]
    tauto

theorem mem_guid_addMissing (g : List Char) : ∀ (disk : List PageRec) (scraped : List IdxEntry),
    g ∈ (addMissing scraped disk).map IdxEntry.guid ↔
      g ∈ scraped.map IdxEntry.guid ∨ g ∈ disk.map PageRec.guid := by
  intro disk
  induction disk with
  | nil => intro scraped; simp [addMissing]
  | cons r rs ih =>
    intro scraped
    have hstep : addMissing scraped (r :: rs) =
        addMissing (if scraped.any (fun e => decide (e.guid = r.guid)) then scraped
          else scraped ++ [entryOfRec r]) rs := rfl
    rw [hstep]
    by_cases h : scraped.any (fun e => decide (e.guid = r.guid)) = true
    · rw [if_pos h, ih]
      have hex : r.guid ∈ scraped.map IdxEntry.guid := by
        rw [List.any_eq_true] at h
        obtain ⟨e, he, heg⟩ := h
        simp only [decide_eq_true_eq] at heg
        exact List.mem_map.mpr ⟨e, he, heg⟩
      simp only [List.map_cons, List.mem_cons]
      constructor
      · rintro (hs | hr)
        · exact Or.inl hs
        · exact Or.inr (Or.inr hr)
      · rintro (hs | rfl | hr)
        · exact Or.inl hs
        · exact Or.inl hex
        · exact Or.inr hr
    · rw [if_neg h, ih, List.map_append]
      have hent : (entryOfRec r).guid = r.guid := rfl
      simp only [List.map_append, List.map_cons, List.map_nil, List.mem_append,
        List.mem_cons, List.not_mem_nil, or_false, hent]
      tauto

theorem entry_guid_split (fetch : List Char → Option (List Char)) (ts : List PageRef)
    (g : List Char) (h : g ∈ (runEntries fetch ts).map IdxEntry.guid) :
    g ∈ ((runEntries fetch ts).filter (fun e => e.failed)).map IdxEntry.guid ∨
      g ∈ (runRecs fetch ts).map PageRec.guid := by
  unfold runEntries at h
  rw [List.map_map, List.mem_map] at h
  obtain ⟨p, hp, hg⟩ := h
  simp only [Function.comp] at hg
  cases hf : fetch p.url with
  | none =>
    left
    rw [List.mem_map]
    refine ⟨(processPage fetch p).1, ?_, hg⟩
    rw [List.mem_filter]
    constructor
    · exact List.mem_map.mpr ⟨p, hp, rfl⟩
    · simp [processPage, hf]
  | some raw =>
    right
    rw [List.mem_map]
    refine ⟨⟨p.guid, p.title, p.url, clean_content raw p.title,
      containsSub "```".data raw⟩, ?_, ?_⟩
    · unfold runRecs
      rw [List.mem_filterMap]
      exact ⟨p, hp, by simp [processPage, hf]⟩
    · rw [← hg]
      simp [processPage, hf]

theorem failed_sub_entries (fetch : List Char → Option (List Char)) (ts : List PageRef)
    (g : List Char)
    (h : g ∈ ((runEntries fetch ts).filter (fun e => e.failed)).map IdxEntry.guid) :
    g ∈ (runEntries fetch ts).map IdxEntry.guid := by
  rw [List.mem_map] at h
  obtain ⟨e, he, hg⟩ := h
  rw [List.mem_filter] at he
  exact List.mem_map.mpr ⟨e, he.1, hg⟩

/-- Claim C2 (amended): resumability belongs to the Tavily orchestrator
    only: with every page's record already in the store, the Tavily run
    makes zero extract API calls — every persisted identifier is skipped
    before scraping — and returns store and manifest unchanged. The
    Playwright orchestrator consults no store and performs one page fetch
    per discovered link on every run, regardless of the store's
    contents. -/
theorem c2_resume_tavily_only (pages : List PageRef) (disk : List PageRec)
    (oldIndex : List IdxEntry) (fetch : List Char → Option (List Char))
    (pdisk : List ScrapedPage) (links : List PageRef)
    (extract : List Char → List Char)
    (h : ∀ p ∈ pages, p.guid ∈ disk.map PageRec.guid) :
    scrapeRun pages disk oldIndex fetch = (0, disk, oldIndex) ∧
      (playwrightRun pdisk links extract).1 = links.length := by
  constructor
  · have hempty : pagesToScrape pages disk = [] := by
      unfold pagesToScrape
      rw [List.filter_eq_nil_iff]
      intro p hp
      simp [h p hp]
    unfold scrapeRun
    rw [hempty]
    rfl
  · rfl

/-- Claim C2 counterexample: the Playwright orchestrator cited by the
    claim performs one page fetch for its discovered link on a second run
    even though the store already holds that page's record, so running it
    a second time does not perform zero new page fetches. -/
theorem c2_counterexample :
    (playwrightRun [⟨"GUID-A".data, "T".data, "u".data, List.replicate 51 'a'⟩]
        [⟨"GUID-A".data, "T".data, "u".data⟩]
        (fun _ => List.replicate 51 'a')).1 = 1 ∧
      (playwrightRun [⟨"GUID-A".data, "T".data, "u".data, List.replicate 51 'a'⟩]
          [⟨"GUID-A".data, "T".data, "u".data⟩]
          (fun _ => List.replicate 51 'a')).1 ≠ 0 := by decide

/-- Witness for c2_resume_tavily_only: a one-page Tavily corpus fully on
    disk, and a one-link Playwright run. -/
theorem c2_witness :
    (scrapeRun [⟨"GUID-A".data, "T".data, "u".data⟩]
        [⟨"GUID-A".data, "T".data, "u".data, "c".data, false⟩]
        [⟨"GUID-A".data, "T".data, "u".data, false, 1, false⟩]
        (fun _ => some "x".data) =
      (0, [⟨"GUID-A".data, "T".data, "u".data, "c".data, false⟩],
        [⟨"GUID-A".data, "T".data, "u".data, false, 1, false⟩])) ∧
      (playwrightRun [] [⟨"GUID-B".data, "TB".data, "ub".data⟩] (fun _ => [])).1 = 1 :=
  c2_resume_tavily_only _ _ _ _ _ _ _ (by decide)

/-- Claim C3 (amended): the union rebuild is a property of the Tavily
    orchestrator only. On a Tavily run that scrapes at least one page,
    the manifest guids are exactly the on-disk record guids after the run
    together with this run's failed-extraction entries, which get
    manifest entries but no disk record; a run with an empty to-scrape
    list returns early and does not rebuild the manifest at all. The
    Playwright orchestrator's save_results instead writes an index
    listing exactly the current run's scraped pages, never scanning
    pre-existing persisted records. -/
theorem c3_manifest_rebuild (pages : List PageRef) (disk : List PageRec)
    (oldIndex : List IdxEntry) (fetch : List Char → Option (List Char))
    (pdisk : List ScrapedPage) (scraped : List ScrapedPage) (g : List Char)
    (h : pagesToScrape pages disk ≠ []) :
    (g ∈ ((scrapeRun pages disk oldIndex fetch).2.2).map IdxEntry.guid ↔
      (g ∈ ((scrapeRun pages disk oldIndex fetch).2.1).map PageRec.guid ∨
       g ∈ ((runEntries fetch (pagesToScrape pages disk)).filter
              (fun e => e.failed)).map IdxEntry.guid)) ∧
      ((save_results pdisk scraped).2).map PageRef.guid =
        scraped.map ScrapedPage.guid := by
  refine ⟨?_, by simp [save_results, List.map_map, Function.comp]⟩
  have hrun : scrapeRun pages disk oldIndex fetch =
      ((((pagesToScrape pages disk).length + BATCH_SIZE - 1) / BATCH_SIZE : Nat),
       diskAfter disk (runRecs fetch (pagesToScrape pages disk)),
       addMissing (runEntries fetch (pagesToScrape pages disk))
         (diskAfter disk (runRecs fetch (pagesToScrape pages disk)))) := by
    unfold scrapeRun
    rw [if_neg h]
  rw [hrun]
  set ts := pagesToScrape pages disk
  constructor
  · intro hmem
    rcases (mem_guid_addMissing g _ _).mp hmem with hentries | hdisk
    · rcases entry_guid_split fetch ts g hentries with hfail | hrecs
      · exact Or.inr hfail
      · exact Or.inl ((mem_guid_diskAfter g _ _).mpr (Or.inr hrecs))
    · exact Or.inl ((mem_guid_diskAfter g _ _).mpr
        ((mem_guid_diskAfter g (runRecs fetch ts) disk).mp
          (by rw [mem_guid_diskAfter] at hdisk ⊢; tauto)))
  · rintro (hdisk | hfail)
    · exact (mem_guid_addMissing g _ _).mpr (Or.inr hdisk)
    · exact (mem_guid_addMissing g _ _).mpr (Or.inl (failed_sub_entries fetch ts g hfail))

/-- Claim C3 counterexample: the Playwright save_results cited by the
    claim writes an index listing only this run's page while the store
    also holds a pre-existing untouched record, so the manifest does not
    enumerate the page records present on disk; and on the Tavily side a
    page that fails extraction gets a manifest entry although nothing is
    written to the store. -/
theorem c3_counterexample :
    ((playwrightRun [⟨"GUID-B".data, "TB".data, "ub".data, "onDisk".data⟩]
        [⟨"GUID-A".data, "TA".data, "ua".data⟩]
        (fun _ => List.replicate 60 'a')).2.2).map PageRef.guid = ["GUID-A".data] ∧
      ((playwrightRun [⟨"GUID-B".data, "TB".data, "ub".data, "onDisk".data⟩]
          [⟨"GUID-A".data, "TA".data, "ua".data⟩]
          (fun _ => List.replicate 60 'a')).2.1).map ScrapedPage.guid =
        ["GUID-B".data, "GUID-A".data] ∧
      scrapeRun [⟨"GUID-A".data, "T".data, "u".data⟩] [] [] (fun _ => none) =
        (1, [], [⟨"GUID-A".data, "T".data, "u".data, false, 0, true⟩]) := by decide

/-- Witness for c3_manifest_rebuild: a two-page Tavily corpus where one
    page is already on disk and the other fails extraction, and a
    one-page Playwright save_results. -/
theorem c3_witness :
    (("GUID-B".data ∈ ((scrapeRun
        [⟨"GUID-A".data, "TA".data, "ua".data⟩, ⟨"GUID-B".data, "TB".data, "ub".data⟩]
        [⟨"GUID-B".data, "TB".data, "ub".data, "c".data, false⟩] []
        (fun _ => none)).2.2).map IdxEntry.guid) ↔
      ("GUID-B".data ∈ ((scrapeRun
          [⟨"GUID-A".data, "TA".data, "ua".data⟩, ⟨"GUID-B".data, "TB".data, "ub".data⟩]
          [⟨"GUID-B".data, "TB".data, "ub".data, "c".data, false⟩] []
          (fun _ => none)).2.1).map PageRec.guid ∨
       "GUID-B".data ∈ ((runEntries (fun _ => none) (pagesToScrape
          [⟨"GUID-A".data, "TA".data, "ua".data⟩, ⟨"GUID-B".data, "TB".data, "ub".data⟩]
          [⟨"GUID-B".data, "TB".data, "ub".data, "c".data, false⟩])).filter
            (fun e => e.failed)).map IdxEntry.guid)) ∧
      ((save_results [] [⟨"GUID-C".data, "TC".data, "uc".data, "body".data⟩]).2).map
          PageRef.guid =
        [⟨"GUID-C".data, "TC".data, "uc".data, "body".data⟩].map ScrapedPage.guid :=
  c3_manifest_rebuild _ _ _ _ _ _ ("GUID-B".data) (by decide)

/-- Claim C4 (amended): the Playwright scraper persists a page record
    exactly when the extracted content is strictly longer than 50
    characters; content of length 50 or less, including exactly 50, is
    discarded. -/
theorem c4_persisted_iff (link : PageRef) (content : List Char) :
    (scrape_page_result link content).isSome = true ↔ 50 < content.length := by
  unfold scrape_page_result
  by_cases h : content ≠ [] ∧ 50 < content.length
  · rw [if_pos h]
    simp [h.2]
  · rw [if_neg h]
    simp only [Option.isSome_none, Bool.false_eq_true, false_iff]
    intro hlen
    apply h
    refine ⟨?_, hlen⟩
    intro he
    rw [he] at hlen
    simp at hlen

/-- Claim C4 counterexample: content of exactly 50 characters is not
    persisted, although the claim says content of at least 50 characters
    is. -/
theorem c4_counterexample :
    scrape_page_result ⟨"GUID-X".data, "T".data, "u".data⟩ (List.replicate 50 'a') = none ∧
      (List.replicate 50 'a').length = 50 ∧
      scrape_page_result ⟨"GUID-X".data, "T".data, "u".data⟩ (List.replicate 49 'a') = none ∧
      (scrape_page_result ⟨"GUID-X".data, "T".data, "u".data⟩
        (List.replicate 51 'a')).isSome = true := by decide

-- ===== extractor lemmas =====

theorem selectorChain_skip (pg : RenderedPage) :
    ∀ (pre rest : List (List Char)),
      (∀ s ∈ pre, ∀ t, pg.query s = some t → ¬(100 < t.length)) →
      selectorChain pg (pre ++ rest) = selectorChain pg rest := by
  intro pre
  induction pre with
  | nil => intro rest _; rfl
  | cons s ss ih =>
    intro rest h
    have hs := h s (List.mem_cons_self _ _)
    have ih' := ih rest (fun x hx => h x (List.mem_cons_of_mem _ hx))
    rw [List.cons_append]
    cases hq : pg.query s with
    | none => simp only [selectorChain, hq]; exact ih'
    | some t =>
      simp only [selectorChain, hq]
      rw [if_neg (by intro hc; exact hs t hq hc.2)]
      exact ih'

/-- Claim C5 (amended): the extractor returns the normalized text of the
    first selector in priority order that is present with raw text
    strictly longer than 100 characters; the boundary is exclusive, so a
    selector holding exactly 100 characters is passed over. When the
    earlier selectors are absent or non-qualifying and a later selector
    qualifies, that later selector's content is returned. -/
theorem c5_first_qualifying (pg : RenderedPage) (pre post : List (List Char))
    (s t : List Char)
    (hsel : selectors = pre ++ s :: post)
    (hq : pg.query s = some t) (hlen : 100 < t.length)
    (hpre : ∀ s' ∈ pre, ∀ t', pg.query s' = some t' → ¬(100 < t'.length)) :
    extract_content pg = normalizeText t := by
  unfold extract_content
  rw [hsel, selectorChain_skip pg pre (s :: post) hpre]
  have htne : t ≠ [] := by
    intro he
    rw [he] at hlen
    simp at hlen
  simp only [selectorChain, hq]
  rw [if_pos ⟨htne, hlen⟩]

set_option maxRecDepth 8000 in
/-- Claim C5 counterexample: with the third selector present holding
    exactly 100 characters and the fourth holding 150, the extractor
    returns the fourth selector's content, not the first present selector
    with at-least-100 characters as the claim states. -/
theorem c5_counterexample :
    extract_content pgBoundary = List.replicate 150 'b' ∧
      pgBoundary.query ".caas_body".data = some (List.replicate 100 'a') ∧
      extract_content pgBoundary ≠ List.replicate 100 'a' := by
  refine ⟨by decide, by decide, by decide⟩

set_option maxRecDepth 8000 in
/-- Witness for c5_first_qualifying at pgBoundary: the first two selectors
    are absent, the third holds exactly 100 characters (non-qualifying),
    and the fourth qualifies with 150 characters. -/
theorem c5_witness :
    extract_content pgBoundary = normalizeText (List.replicate 150 'b') :=
  c5_first_qualifying pgBoundary
    [".body_content".data, "#body-content".data, ".caas_body".data] ["main".data]
    ("article".data) (List.replicate 150 'b') rfl (by decide) (by decide)
    (by
      intro s' hs' t' hq'
      fin_cases hs'
      · have hnone : pgBoundary.query ".body_content".data = none := by decide
        rw [hnone] at hq'; cases hq'
      · have hnone : pgBoundary.query "#body-content".data = none := by decide
        rw [hnone] at hq'; cases hq'
      · have hsome : pgBoundary.query ".caas_body".data = some (List.replicate 100 'a') := by
          decide
        rw [hsome] at hq'
        obtain rfl : List.replicate 100 'a' = t' := by
          simpa using hq'
        simp)

-- ===== discovery lemmas =====

theorem dedupFirst_nodup : ∀ (l seen : List (List Char)),
    (dedupFirst l seen).Nodup ∧ ∀ g ∈ dedupFirst l seen, g ∉ seen := by
  intro l
  induction l with
  | nil => intro seen; exact ⟨List.nodup_nil, fun g hg => absurd hg (List.not_mem_nil g)⟩
  | cons x xs ih =>
    intro seen
    by_cases hx : x ∈ seen
    · simp only [dedupFirst, if_pos hx]
      exact ih seen
    · simp only [dedupFirst, if_neg hx]
      obtain ⟨hnd, hnotin⟩ := ih (x :: seen)
      refine ⟨List.nodup_cons.mpr ⟨?_, hnd⟩, ?_⟩
      · intro hmem
        exact hnotin x hmem (List.mem_cons_self _ _)
      · intro g hg
        rcases List.mem_cons.mp hg with rfl | hmem
        · exact hx
        · intro hseen
          exact hnotin g hmem (List.mem_cons_of_mem _ hseen)

theorem discoverLoop_guids (base : List Char) : ∀ (links : List RawLink)
    (visited : List (List Char)),
    (discoverLoop base links visited).map PageRef.guid =
      dedupFirst (links.filterMap eligGuid) visited := by
  intro links
  induction links with
  | nil => intro visited; rfl
  | cons link rest ih =>
    intro visited
    by_cases ht : pyStrip link.title = []
    · have helig : eligGuid link = none := by simp [eligGuid, ht]
      simp only [discoverLoop, if_pos ht, List.filterMap_cons, helig]
      exact ih visited
    · have helig : eligGuid link = findGuid (link.href.getD []) := by
        simp [eligGuid, ht]
      cases hfg : findGuid (link.href.getD []) with
      | none =>
        simp only [discoverLoop, if_neg ht, hfg, List.filterMap_cons, helig]
        exact ih visited
      | some guid =>
        by_cases hv : guid ∈ visited
        · simp only [discoverLoop, if_neg ht, hfg, if_pos hv, List.filterMap_cons, helig,
            dedupFirst, ih]
        · simp only [discoverLoop, if_neg ht, hfg, if_neg hv, List.filterMap_cons, helig,
            dedupFirst, List.map_cons, ih]

theorem discoverLoop_titles (base : List Char) : ∀ (links : List RawLink)
    (visited : List (List Char)),
    ∀ p ∈ discoverLoop base links visited, p.title ≠ [] := by
  intro links
  induction links with
  | nil => intro visited p hp; cases hp
  | cons link rest ih =>
    intro visited p hp
    by_cases ht : pyStrip link.title = []
    · rw [discoverLoop, if_pos ht] at hp
      exact ih visited p hp
    · rw [discoverLoop, if_neg ht] at hp
      cases hfg : findGuid (link.href.getD []) with
      | none =>
        simp only [hfg] at hp
        exact ih visited p hp
      | some guid =>
        simp only [hfg] at hp
        by_cases hv : guid ∈ visited
        · rw [if_pos hv] at hp
          exact ih visited p hp
        · rw [if_neg hv] at hp
          rcases List.mem_cons.mp hp with rfl | hmem
          · exact ht
          · exact ih _ p hmem


/-- Claim C6: a discovery pass returns no two entries with the same
    identifier: the guid sequence of the result is exactly the
    first-occurrence deduplication of the eligible anchors' guids (so the
    first occurrence wins and later duplicates are dropped), it contains
    no duplicates, and every returned entry has a nonempty (stripped)
    title, whitespace-only anchors having been skipped. -/
theorem c6_discovery_dedup (base : List Char) (links : List RawLink)
    (visited : List (List Char)) :
    (discoverLoop base links visited).map PageRef.guid =
        dedupFirst (links.filterMap eligGuid) visited ∧
      ((discoverLoop base links visited).map PageRef.guid).Nodup ∧
      ∀ p ∈ discoverLoop base links visited, p.title ≠ [] := by
  refine ⟨discoverLoop_guids base links visited, ?_, discoverLoop_titles base links visited⟩
  rw [discoverLoop_guids base links visited]
  exact (dedupFirst_nodup _ _).1

-- ===== expansion loop lemmas =====

theorem expandLoopPasses_le {σ : Type} (step : σ → σ) (query : σ → Nat) :
    ∀ (n : Nat) (s : σ), expandLoopPasses step query n s ≤ n := by
  intro n
  induction n with
  | zero => intro s; exact Nat.le_refl 0
  | succ m ih =>
    intro s
    simp only [expandLoopPasses]
    by_cases h : query s = 0
    · rw [if_pos h]; omega
    · rw [if_neg h]
      have := ih (step s)
      omega

theorem expandLoopPasses_early {σ : Type} (step : σ → σ) (query : σ → Nat)
    (n : Nat) (s : σ) (h : query s = 0) (hn : 0 < n) :
    expandLoopPasses step query n s = 1 := by
  cases n with
  | zero => omega
  | succ m => simp only [expandLoopPasses, if_pos h]

/-- Claim C7 (amended): both expansion loops are bounded and terminate
    early when a pass finds zero collapsed nodes, but the two modes have
    different default caps: 20 passes in the subtree-restricted mode and
    30 passes in the whole-tree degraded fallback mode. -/
theorem c7_expansion_bounded {σ : Type} (step : σ → σ) (query : σ → Nat) (s : σ) :
    expand_all_api_subsections step query s ≤ 20 ∧
      expand_all_sections step query s ≤ 30 ∧
      (query s = 0 → expand_all_api_subsections step query s = 1 ∧
        expand_all_sections step query s = 1) := by
  refine ⟨expandLoopPasses_le step query 20 s, expandLoopPasses_le step query 30 s, ?_⟩
  intro h
  exact ⟨expandLoopPasses_early step query 20 s h (by omega),
    expandLoopPasses_early step query 30 s h (by omega)⟩

/-- Claim C7 counterexample: on a tree state that always reports a
    collapsed node, the whole-tree fallback loop runs 30 passes, so the
    default cap of 20 claimed for both modes does not hold in the
    fallback mode. -/
theorem c7_counterexample :
    expand_all_sections (fun n : Nat => n) (fun _ => 1) 0 = 30 ∧
      ¬(expand_all_sections (fun n : Nat => n) (fun _ => 1) 0 ≤ 20) := by decide

/-- Witness for c7_expansion_bounded: a state with zero collapsed nodes
    makes both loops stop after a single pass. -/
theorem c7_witness :
    expand_all_api_subsections (fun n : Nat => n) (fun _ => 0) 0 = 1 ∧
      expand_all_sections (fun n : Nat => n) (fun _ => 0) 0 = 1 :=
  (c7_expansion_bounded (fun n : Nat => n) (fun _ => 0) 0).2.2 rfl
